import Mathlib

/-!
Verification development for `scripts/run_qiwu_examples.py`, an interactive
launcher that resolves a built executable, discovers YAML experiment
configuration files, prompts the user for a selection and spawns the
executable on the chosen configuration.

The script is embedded shallowly:

* Filesystem paths are lists of components relative to the project root
  (`Path := List String`); `Path(__file__).parent.parent` is the root itself.
* The disk is abstracted by a `FileSystem` record: `pathExists` models
  `Path.exists()` and `filesUnder d` models the set of files found by a
  recursive traversal below directory `d`, as paths relative to `d`, in
  traversal order.  `rglob(pat)` is modelled as filtering `filesUnder` by a
  suffix match of the pattern against the final name component.
* Standard input is a list of lines; `input()` consumes one line.
* Spawning `subprocess.run(cmd, check=True)` is abstracted by a
  `SpawnResult`: either the child exited with some status, or the
  executable was missing (`FileNotFoundError`).
* `sys.exit(n)` and normal completion are reflected in the result values of
  the embedded functions (`ChoiceResult`, the exit code returned by `main`).
-/

namespace Qiwu

/-- A filesystem path, as components relative to the project root. -/
abbrev Path := List String

/-- `get_project_root`: `Path(__file__).parent.parent`, the repository root,
which is the origin of our relative-path representation. -/
def get_project_root : Path := []

/-- Render a path the way `str(path)` does on POSIX: components joined
with `/`.  Python compares `pathlib` paths by this string (case-sensitively
on POSIX), which is what `sorted(yaml_files)` uses. -/
def pathStr (p : Path) : String := String.intercalate "/" p

/-- Abstraction of the on-disk state the script reads. -/
structure FileSystem where
  /-- `p.exists()` for the path `p` (relative to the project root). -/
  pathExists : Path → Bool
  /-- The files below directory `d`, as paths relative to `d`, in the order
  a recursive traversal reports them. -/
  filesUnder : Path → List Path

/-- The candidate executable locations tried by `get_executable_path`,
in priority order (source lines 26–31). -/
def possible_paths : List Path :=
  [ ["build", "bin", "Release", "qiwu-example.exe"],
    ["build", "bin", "RelWithDebInfo", "qiwu-example.exe"],
    ["build", "bin", "qiwu-example"],
    ["build", "qiwu-example"] ]

/-- `get_executable_path`: return the first candidate in `possible_paths`
that exists, else `None` (source lines 21–37). -/
def get_executable_path (fs : FileSystem) : Option Path :=
  possible_paths.find? fs.pathExists

/-- The configuration directory `project_root / "resources" / "exps"`. -/
def yaml_dir : Path := ["resources", "exps"]

/-- `Path.name`: the final path component (empty for the root). -/
def pathName (p : Path) : String := p.getLastD ""

/-- `s.endsWith post`, structurally on the character lists. -/
def endsWithM (s post : String) : Bool :=
  post.data.reverse.isPrefixOf s.data.reverse

/-- Whether a relative path is matched by `rglob(pattern)` for a pattern of
the shape `*.<ext>`: its file name ends with the given suffix. -/
def matchesExt (ext : String) (p : Path) : Bool :=
  endsWithM (pathName p) ext

/-- Index of the last occurrence of a character in a list, if any
(Python `str.rfind`). -/
def lastIdxOf (c : Char) : List Char → Option Nat
  | [] => none
  | a :: as =>
    match lastIdxOf c as with
    | some i => some (i + 1)
    | none => if a = c then some 0 else none

/-- `PurePath.stem`: the file name with its last suffix removed.  Python
removes `name[i:]` for `i = name.rfind('.')` only when `0 < i < len - 1`,
so dotfiles like `.yaml` and names ending in `.` keep their full name. -/
def stem (name : String) : String :=
  match lastIdxOf '.' name.data with
  | some i => if 0 < i ∧ i < name.data.length - 1 then ⟨name.data.take i⟩ else name
  | none => name

/-- `PurePath.relative_to`: strip a base prefix from a path.  The script
only applies it when `base` is a prefix (the discovered files all live
below `resources`), where it drops the base components. -/
def relative_to (p base : Path) : Path :=
  if base.isPrefixOf p then p.drop base.length else p

/-- One entry of the configuration menu: the dictionary
`{'path': rel_path, 'name': yaml_file.stem, 'full_path': yaml_file}`
built at source lines 58–62. -/
structure ConfigEntry where
  /-- `rel_path`: the file's path relative to `resources`. -/
  path : Path
  /-- `yaml_file.stem`: the file name without its final extension. -/
  name : String
  /-- `yaml_file`: the full path (relative to the project root here). -/
  full_path : Path
  deriving Repr, DecidableEq

instance : Inhabited ConfigEntry := ⟨⟨[], "", []⟩⟩

/-- Code-point lexicographic `≤` on character lists: Python's string
comparison (a proper prefix compares smaller). -/
def lexLeCh : List Char → List Char → Bool
  | [], _ => true
  | _ :: _, [] => false
  | a :: as, b :: bs =>
    if a < b then true else if b < a then false else lexLeCh as bs

/-- Ordering used by `sorted(yaml_files)`: `pathlib` paths compare by
their case-normalised string, which on POSIX is the plain rendered
string, compared code-point-lexicographically. -/
def pathLe (p q : Path) : Prop :=
  lexLeCh (pathStr p).data (pathStr q).data = true

instance : DecidableRel pathLe := fun p q =>
  inferInstanceAs (Decidable (lexLeCh (pathStr p).data (pathStr q).data = true))

theorem lexLeCh_total : ∀ as bs, lexLeCh as bs = true ∨ lexLeCh bs as = true
  | [], _ => Or.inl rfl
  | _ :: _, [] => Or.inr rfl
  | a :: as, b :: bs => by
    rcases lt_trichotomy a b with h | h | h
    · left; simp [lexLeCh, h]
    · subst h
      rcases lexLeCh_total as bs with h' | h'
      · left; simp [lexLeCh, lt_irrefl, h']
      · right; simp [lexLeCh, lt_irrefl, h']
    · right; simp [lexLeCh, h]

theorem lexLeCh_trans :
    ∀ as bs cs, lexLeCh as bs = true → lexLeCh bs cs = true →
      lexLeCh as cs = true
  | [], _, _, _, _ => rfl
  | _ :: _, [], _, h1, _ => by simp [lexLeCh] at h1
  | _ :: _, _ :: _, [], _, h2 => by simp [lexLeCh] at h2
  | a :: as, b :: bs, c :: cs, h1, h2 => by
    simp only [lexLeCh] at h1 h2 ⊢
    by_cases hab : a < b
    · by_cases hbc : b < c
      · simp [lt_trans hab hbc]
      · by_cases hcb : c < b
        · simp [hbc, hcb] at h2
        · have hbc' : b = c := le_antisymm (not_lt.mp hcb) (not_lt.mp hbc)
          subst hbc'
          simp [hab]
    · by_cases hba : b < a
      · simp [hab, hba] at h1
      · have hab' : a = b := le_antisymm (not_lt.mp hba) (not_lt.mp hab)
        subst hab'
        simp only [hab, hba, if_neg, ite_self, if_false] at h1 ⊢
        by_cases hac : a < c
        · simp [hac]
        · by_cases hca : c < a
          · simp [hac, hca] at h2
          · simp only [hac, hca, if_neg, ite_self, if_false] at h2 ⊢
            exact lexLeCh_trans as bs cs h1 h2

instance : IsTotal Path pathLe :=
  ⟨fun p q => lexLeCh_total (pathStr p).data (pathStr q).data⟩

instance : IsTrans Path pathLe :=
  ⟨fun _ _ _ h h' => lexLeCh_trans _ _ _ h h'⟩

/-- Build one menu entry from a discovered file (full path relative to the
project root): source lines 56–62. -/
def mkConfigEntry (yaml_file : Path) : ConfigEntry :=
  { path := relative_to yaml_file ["resources"],
    name := stem (pathName yaml_file),
    full_path := yaml_file }

/-- `get_yaml_configs`: if `resources/exps` is missing return `[]`; else
collect the files matching `*.yaml` then those matching `*.yml`, sort the
full paths, and build a `ConfigEntry` for each (source lines 40–64). -/
def get_yaml_configs (fs : FileSystem) : List ConfigEntry :=
  if fs.pathExists yaml_dir = false then []
  else
    let rels := fs.filesUnder yaml_dir
    let yaml_files :=
      ((rels.filter (matchesExt ".yaml")).map (yaml_dir ++ ·)) ++
      ((rels.filter (matchesExt ".yml")).map (yaml_dir ++ ·))
    (yaml_files.insertionSort pathLe).map mkConfigEntry

/-- `display_configs`: the numbered menu, as the sequence of
(1-based index, display name) pairs printed at source lines 72–73. -/
def display_configs (configs : List ConfigEntry) : List (Nat × String) :=
  configs.enum.map (fun p => (p.1 + 1, p.2.name))

/-- Python `str.strip()`: remove leading and trailing whitespace. -/
def stripM (s : String) : String :=
  ⟨((s.data.dropWhile Char.isWhitespace).reverse.dropWhile Char.isWhitespace).reverse⟩

/-- Python `str.lower()`: lowercase every character. -/
def lowerM (s : String) : String := ⟨s.data.map Char.toLower⟩

/-- `int(s)` on a stripped string, modelling the `ValueError` by `none`:
an optional single sign followed by at least one decimal digit. -/
def digitsToNat (cs : List Char) : Option Nat :=
  if cs ≠ [] ∧ cs.all Char.isDigit then
    some (cs.foldl (fun a c => a * 10 + (c.toNat - 48)) 0)
  else none

/-- Python `int(choice)` for an already-stripped `choice` (`none` models
the `ValueError` branch). -/
def parseIntOpt (s : String) : Option Int :=
  match s.data with
  | '-' :: rest => (digitsToNat rest).map (fun n => -(n : Int))
  | '+' :: rest => (digitsToNat rest).map (fun n => (n : Int))
  | cs => (digitsToNat cs).map (fun n => (n : Int))

/-- The menu inputs `get_user_choice` rejects: lines that do not parse as
an integer, or parse to an integer outside `1..N`. -/
def invalidChoice (o : Option Int) (n : Nat) : Bool :=
  match o with
  | none => true
  | some k => decide (k < 1 ∨ (n : Int) < k)

/-- Outcome of the `get_user_choice` loop. -/
inductive ChoiceResult where
  /-- The user entered the quit sentinel: `sys.exit(0)`. -/
  | quit
  /-- The user selected a configuration. -/
  | selected (c : ConfigEntry)
  /-- The modelled input lines ran out before a valid choice. -/
  | noInput
  deriving Repr, DecidableEq

/-- `get_user_choice`: read lines until one is the quit sentinel (exit) or
an in-range integer (return `configs[n-1]`); anything else re-prompts
(source lines 78–94). -/
def get_user_choice (configs : List ConfigEntry) : List String → ChoiceResult
  | [] => .noInput
  | line :: rest =>
    let choice := stripM line
    if lowerM choice = "q" then .quit
    else
      match parseIntOpt choice with
      | some n =>
        if 1 ≤ n ∧ n ≤ (configs.length : Int) then
          .selected (configs.getD (n - 1).toNat default)
        else get_user_choice configs rest
      | none => get_user_choice configs rest

/-- What the operating system did when the script spawned the child. -/
inductive SpawnResult where
  /-- The child ran and exited with this status
  (`subprocess.run` raises `CalledProcessError` when it is nonzero). -/
  | exited (code : Int)
  /-- The executable was missing at spawn time (`FileNotFoundError`). -/
  | notFound
  deriving Repr, DecidableEq

/-- The observable effect of `run_experiment`: the working directory in
force at spawn time, the argument vector, the returned boolean and the
final status line printed. -/
structure RunOutcome where
  cwd : Path
  cmd : List String
  success : Bool
  message : String
  deriving Repr, DecidableEq

/-- Status line for a zero exit (source line 117). -/
def msg_success : String := "Experiment completed successfully"

/-- Status line for a nonzero exit (source line 120). -/
def msg_failed (code : Int) : String :=
  "Experiment failed with return code: " ++ toString code

/-- Status line for a missing executable (source line 123). -/
def msg_notfound (exe : String) : String :=
  "Error: Could not find executable at " ++ exe

/-- `run_experiment`: `os.chdir(project_root)`, build
`cmd = [str(executable_path), str(config['path'])]`, run it; return `True`
with a success line on exit 0, `False` with a failure line on nonzero exit
(`CalledProcessError`), `False` with a distinct error line on
`FileNotFoundError` (source lines 97–124). -/
def run_experiment (executable_path : Path) (config : ConfigEntry)
    (spawn : SpawnResult) : RunOutcome :=
  let cmd := [pathStr executable_path, pathStr config.path]
  match spawn with
  | .exited code =>
    if code = 0 then
      { cwd := get_project_root, cmd := cmd, success := true, message := msg_success }
    else
      { cwd := get_project_root, cmd := cmd, success := false, message := msg_failed code }
  | .notFound =>
    { cwd := get_project_root, cmd := cmd, success := false,
      message := msg_notfound (pathStr executable_path) }

/-- `main`: the launcher's exit code as a function of the filesystem, the
input lines and the spawn behaviour; `none` when the modelled input lines
run out at the menu prompt (source lines 127–166).  The three `sys.exit(1)`
branches are the missing executable, the missing config directory and the
empty configuration list; user quit and the completed flow fall through to
exit code 0 regardless of the child's result. -/
def main (fs : FileSystem) (stdin : List String) (spawn : SpawnResult) :
    Option Nat :=
  match get_executable_path fs with
  | none => some 1
  | some exe =>
    if fs.pathExists yaml_dir = false then some 1
    else
      let configs := get_yaml_configs fs
      if configs.isEmpty then some 1
      else
        match get_user_choice configs stdin with
        | .noInput => none
        | .quit => some 0
        | .selected c =>
          let _ := run_experiment exe c spawn
          some 0

/-! ### Concrete fixtures used to instantiate the theorems -/

/-- A filesystem with the spec's example resources
(`b.yaml`, `a.yml`, `c.txt` directly under `resources/exps`) and one
existing executable candidate. -/
def exampleFS : FileSystem :=
  { pathExists := fun p => p = yaml_dir ∨ p = ["build", "qiwu-example"],
    filesUnder := fun d =>
      if d = yaml_dir then [["b.yaml"], ["a.yml"], ["c.txt"]] else [] }

/-- A filesystem with nothing on it. -/
def emptyFS : FileSystem :=
  { pathExists := fun _ => false, filesUnder := fun _ => [] }

/-- A three-entry menu, for the spec's menu-validation scenarios. -/
def cfgs3 : List ConfigEntry :=
  [ { path := ["exps", "a.yml"], name := "a",
      full_path := ["resources", "exps", "a.yml"] },
    { path := ["exps", "b.yaml"], name := "b",
      full_path := ["resources", "exps", "b.yaml"] },
    { path := ["exps", "c.yaml"], name := "c",
      full_path := ["resources", "exps", "c.yaml"] } ]

/-! ### Helper lemmas -/

theorem filter_append_perm_disjoint {α : Type} (m₁ m₂ : α → Bool)
    (hd : ∀ a, m₁ a = true → m₂ a = false) :
    ∀ l : List α,
      (l.filter m₁ ++ l.filter m₂).Perm (l.filter (fun a => m₁ a || m₂ a))
  | [] => by simp
  | a :: l => by
    by_cases h1 : m₁ a = true
    · have h2 : m₂ a = false := hd a h1
      simpa [List.filter_cons, h1, h2] using
        (filter_append_perm_disjoint m₁ m₂ hd l).cons a
    · have h1' : m₁ a = false := by simpa using h1
      by_cases h2 : m₂ a = true
      · simp only [List.filter_cons, h1', h2, Bool.false_or, if_true, if_false,
          Bool.false_eq_true]
        exact List.perm_middle.trans ((filter_append_perm_disjoint m₁ m₂ hd l).cons a)
      · have h2' : m₂ a = false := by simpa using h2
        simpa [List.filter_cons, h1', h2'] using filter_append_perm_disjoint m₁ m₂ hd l

theorem endsWith_yaml_not_yml (s : String) (h : endsWithM s ".yaml" = true) :
    endsWithM s ".yml" = false := by
  unfold endsWithM at h ⊢
  obtain ⟨t, ht⟩ := List.isPrefixOf_iff_prefix.mp h
  rw [← ht]
  rfl

theorem endsWithM_ne_nil (s ext : String) (hx : ext.data ≠ [])
    (h : endsWithM s ext = true) : s.data ≠ [] := by
  intro hs
  unfold endsWithM at h
  rw [hs] at h
  rcases hr : ext.data.reverse with _ | ⟨a, r⟩
  · exact hx (List.reverse_eq_nil_iff.mp hr)
  · rw [hr] at h
    simp [List.isPrefixOf] at h

theorem pathName_append (base rel : Path) (h : rel ≠ []) :
    pathName (base ++ rel) = pathName rel := by
  unfold pathName
  rw [List.getLastD_eq_getLast?, List.getLastD_eq_getLast?,
    List.getLast?_append_of_ne_nil base h]

theorem dropWhile_head_false {α : Type} {p : α → Bool} {l : List α} {x : α}
    {xs : List α} (h : l.dropWhile p = x :: xs) : p x = false := by
  have h' := List.head?_dropWhile_not p l
  rw [h] at h'
  exact h'

theorem getLast?_dropWhile_of_ne_nil {α : Type} {p : α → Bool} :
    ∀ l : List α, l.dropWhile p ≠ [] →
      (l.dropWhile p).getLast? = l.getLast?
  | [], h => absurd rfl h
  | a :: l, h => by
    by_cases pa : p a = true
    · have hdw : (a :: l).dropWhile p = l.dropWhile p := by
        simp [List.dropWhile, pa]
      rw [hdw] at h ⊢
      have hl : l ≠ [] := by
        intro he; rw [he] at h; exact h rfl
      rw [getLast?_dropWhile_of_ne_nil l h]
      rcases l with _ | ⟨b, l'⟩
      · exact absurd rfl hl
      · exact (List.getLast?_cons_cons (l := l')).symm
    · have pa' : p a = false := by simpa using pa
      simp [List.dropWhile, pa']

theorem dropWhile_of_head_false {α : Type} {p : α → Bool} {l : List α}
    (h : ∀ x xs, l = x :: xs → p x = false) : l.dropWhile p = l := by
  rcases l with _ | ⟨a, l'⟩
  · rfl
  · simp [List.dropWhile, h a l' rfl]

/-- `str.strip()` is idempotent. -/
theorem stripM_idem (s : String) : stripM (stripM s) = stripM s := by
  unfold stripM
  set ws := Char.isWhitespace
  set d := s.data with hd
  set A := d.dropWhile ws with hA
  set B := A.reverse.dropWhile ws with hB
  simp only [List.reverse_reverse]
  have hBrev : B.reverse.dropWhile ws = B.reverse := by
    apply dropWhile_of_head_false
    intro x xs hx
    have hBne : B ≠ [] := by
      intro he; rw [he] at hx; simp at hx
    have h1 : B.getLast? = A.reverse.getLast? :=
      getLast?_dropWhile_of_ne_nil A.reverse (hB ▸ hBne)
    have h2 : A.reverse.getLast? = A.head? := List.getLast?_reverse A
    have h3 : B.reverse.head? = B.getLast? := by
      rw [← List.getLast?_reverse B.reverse, List.reverse_reverse]
    have hx' : B.reverse.head? = some x := by rw [hx]; rfl
    have hAh : A.head? = some x := by rw [← h2, ← h1, ← h3, hx']
    rcases hAe : A with _ | ⟨a0, A'⟩
    · rw [hAe] at hAh; simp at hAh
    · rw [hAe] at hAh
      simp only [List.head?] at hAh
      have ha0 : ws a0 = false := dropWhile_head_false (hA.symm.trans hAe)
      cases hAh
      exact ha0
  rw [hBrev]
  have hBB : B.reverse.reverse.dropWhile ws = B := by
    rw [List.reverse_reverse, hB]
    apply dropWhile_of_head_false
    intro x xs hx
    exact dropWhile_head_false (hB.symm.trans hx)
  rw [hBB]

theorem toLower_of_isDigit (c : Char) (h : c.isDigit = true) : c.toLower = c := by
  have h2 : c.val ≤ 57 := by
    simp only [Char.isDigit, Bool.and_eq_true, decide_eq_true_eq] at h
    exact h.2
  have h3 : c.toNat ≤ 57 := by rw [UInt32.le_def] at h2; exact h2
  unfold Char.toLower
  have hno : ¬(c.toNat ≥ 65 ∧ c.toNat ≤ 90) := by omega
  simp [hno]

theorem lowerM_eq_q {s : String} (h : lowerM s = "q") :
    ∃ c, s.data = [c] ∧ c.toLower = 'q' := by
  unfold lowerM at h
  have hd : s.data.map Char.toLower = ['q'] := congrArg String.data h
  rcases hs : s.data with _ | ⟨c, rest⟩
  · rw [hs] at hd; simp at hd
  · rw [hs] at hd
    simp only [List.map_cons, List.cons.injEq] at hd
    rcases hd with ⟨hc, hrest⟩
    have : rest = [] := by simpa using hrest
    exact ⟨c, by rw [this], hc⟩

/-- A line that parses as an integer is never the quit sentinel. -/
theorem parse_ne_q {s : String} {n : Int} (hp : parseIntOpt s = some n) :
    lowerM s ≠ "q" := by
  intro hq
  obtain ⟨c, hs, hc⟩ := lowerM_eq_q hq
  unfold parseIntOpt at hp
  rw [hs] at hp
  by_cases h1 : c = '-'
  · subst h1
    simp [digitsToNat] at hp
  · by_cases h2 : c = '+'
    · subst h2
      simp [digitsToNat] at hp
    · have harm : (match [c] with
        | '-' :: rest => (digitsToNat rest).map (fun n => -(n : Int))
        | '+' :: rest => (digitsToNat rest).map (fun n => (n : Int))
        | cs => (digitsToNat cs).map (fun n => (n : Int))) =
          (digitsToNat [c]).map (fun n => (n : Int)) := by
        rcases hcv : c with ⟨v, hv⟩
        rw [← hcv]
        split
        · rename_i heq; rw [List.cons.injEq] at heq; exact absurd heq.1 h1
        · rename_i heq; rw [List.cons.injEq] at heq; exact absurd heq.1 h2
        · rfl
      rw [harm] at hp
      by_cases hdig : c.isDigit = true
      · have hcc : c = 'q' := by rw [← toLower_of_isDigit c hdig]; exact hc
        rw [hcc] at hdig
        exact absurd hdig (by decide)
      · have hdig' : c.isDigit = false := by simpa using hdig
        simp [digitsToNat, hdig'] at hp

theorem msg_notfound_ne_failed (e : String) (r : Int) :
    msg_notfound e ≠ msg_failed r := by
  intro h
  have hd := congrArg String.data h
  rw [msg_notfound, msg_failed, String.data_append, String.data_append] at hd
  have h1 := congrArg (fun l => l[1]?) hd
  simp only [List.getElem?_append] at h1
  rw [if_pos (by decide), if_pos (by decide)] at h1
  exact absurd h1 (by decide)

theorem msg_notfound_ne_success (e : String) :
    msg_notfound e ≠ msg_success := by
  intro h
  have hd := congrArg String.data h
  rw [msg_notfound, String.data_append] at hd
  have h1 := congrArg (fun l => l[1]?) hd
  simp only [List.getElem?_append] at h1
  rw [if_pos (by decide)] at h1
  exact absurd h1 (by decide)

/-- Structure of any entry produced by `get_yaml_configs`: it comes from a
file below `resources/exps` whose name matches one of the two patterns. -/
theorem mem_get_yaml_configs {fs : FileSystem} {c : ConfigEntry}
    (hc : c ∈ get_yaml_configs fs) :
    ∃ rel, rel ∈ fs.filesUnder yaml_dir ∧
      (matchesExt ".yaml" rel = true ∨ matchesExt ".yml" rel = true) ∧
      c = mkConfigEntry (yaml_dir ++ rel) := by
  unfold get_yaml_configs at hc
  by_cases hdir : fs.pathExists yaml_dir = false
  · rw [if_pos hdir] at hc; simp at hc
  · rw [if_neg hdir] at hc
    simp only [List.mem_map] at hc
    obtain ⟨f, hf, hcf⟩ := hc
    rw [List.mem_insertionSort] at hf
    rw [List.mem_append, List.mem_map, List.mem_map] at hf
    rcases hf with ⟨rel, hrel, hfrel⟩ | ⟨rel, hrel, hfrel⟩
    · rw [List.mem_filter] at hrel
      exact ⟨rel, hrel.1, Or.inl hrel.2, by rw [← hcf, ← hfrel]⟩
    · rw [List.mem_filter] at hrel
      exact ⟨rel, hrel.1, Or.inr hrel.2, by rw [← hcf, ← hfrel]⟩

/-- A path matched by one of the two patterns is nonempty. -/
theorem matched_ne_nil {rel : Path}
    (h : matchesExt ".yaml" rel = true ∨ matchesExt ".yml" rel = true) :
    rel ≠ [] := by
  intro he
  subst he
  rcases h with h | h <;> exact absurd h (by decide)

/-! ### Claim theorems -/

/-- C1: for every configuration of which candidate paths exist,
`get_executable_path` returns the first existing path of the fixed
four-element priority list
(`build/bin/Release/qiwu-example.exe`,
`build/bin/RelWithDebInfo/qiwu-example.exe`, `build/bin/qiwu-example`,
`build/qiwu-example`), and `none` when none of them exists. -/
theorem C1_resolve_first_existing (fs : FileSystem) :
    get_executable_path fs =
      (if fs.pathExists ["build", "bin", "Release", "qiwu-example.exe"] then
        some ["build", "bin", "Release", "qiwu-example.exe"]
      else if fs.pathExists ["build", "bin", "RelWithDebInfo", "qiwu-example.exe"] then
        some ["build", "bin", "RelWithDebInfo", "qiwu-example.exe"]
      else if fs.pathExists ["build", "bin", "qiwu-example"] then
        some ["build", "bin", "qiwu-example"]
      else if fs.pathExists ["build", "qiwu-example"] then
        some ["build", "qiwu-example"]
      else none) := by
  unfold get_executable_path possible_paths
  cases h1 : fs.pathExists ["build", "bin", "Release", "qiwu-example.exe"] <;>
    cases h2 : fs.pathExists ["build", "bin", "RelWithDebInfo", "qiwu-example.exe"] <;>
      cases h3 : fs.pathExists ["build", "bin", "qiwu-example"] <;>
        cases h4 : fs.pathExists ["build", "qiwu-example"] <;>
          simp [List.find?, h1, h2, h3, h4]

/-- C2: `run_experiment` returns `True` exactly when the spawned child
exits 0 and `False` on any nonzero exit, and a missing executable at spawn
time is reported with a status line distinct from every exit-status report
(and from the success line), so it is not conflated with a nonzero exit. -/
theorem C2_run_success_iff_exit_zero (executable_path : Path)
    (config : ConfigEntry) :
    (∀ code : Int,
      ((run_experiment executable_path config (.exited code)).success = true ↔
        code = 0)) ∧
    (run_experiment executable_path config .notFound).success = false ∧
    (∀ code : Int,
      ((run_experiment executable_path config .notFound).message ==
        (run_experiment executable_path config (.exited code)).message) = false) := by
  refine ⟨fun code => ?_, ?_, fun code => ?_⟩
  · unfold run_experiment
    by_cases h : code = 0 <;> simp [h]
  · rfl
  · unfold run_experiment
    by_cases h : code = 0
    · subst h
      simp only [if_pos rfl, beq_eq_false_iff_ne, ne_eq]
      exact msg_notfound_ne_success _
    · simp only [if_neg h, beq_eq_false_iff_ne, ne_eq]
      exact msg_notfound_ne_failed _ _

/-- C3: the launcher exits 0 on user quit and on a completed flow
(whatever the child did), and exits 1 exactly when no executable candidate
exists, the `resources/exps` directory is missing, or no configuration
files were found. -/
theorem C3_exit_codes (fs : FileSystem) (stdin : List String)
    (spawn : SpawnResult) :
    (main fs stdin spawn = some 1 ↔
      (get_executable_path fs = none ∨ fs.pathExists yaml_dir = false ∨
        get_yaml_configs fs = [])) ∧
    (get_executable_path fs ≠ none → fs.pathExists yaml_dir = true →
      get_yaml_configs fs ≠ [] →
      (get_user_choice (get_yaml_configs fs) stdin = .quit →
        main fs stdin spawn = some 0) ∧
      (∀ c, get_user_choice (get_yaml_configs fs) stdin = .selected c →
        main fs stdin spawn = some 0)) := by
  unfold main
  rcases hexe : get_executable_path fs with _ | exe
  · simp
  · simp only [hexe, ne_eq, reduceCtorEq, false_or, not_false_eq_true,
      forall_const]
    by_cases hdir : fs.pathExists yaml_dir = false
    · rw [if_pos hdir]
      simp [hdir]
    · rw [if_neg hdir]
      have hdir' : fs.pathExists yaml_dir = true := by
        simpa using hdir
      simp only [hdir', Bool.true_eq_false, false_or]
      by_cases hemp : get_yaml_configs fs = []
      · rw [hemp]
        simp
      · rw [if_neg (by simpa [List.isEmpty_iff] using hemp)]
        refine ⟨?_, fun _ hne => ⟨fun hq => by rw [hq], fun c hc => by rw [hc]⟩⟩
        constructor
        · intro h
          rcases hch : get_user_choice (get_yaml_configs fs) stdin with _ | c | _ <;>
            rw [hch] at h <;> simp at h
        · intro h
          exact absurd h hemp

/-- C4: against a non-empty menu, a line that does not parse as an integer
or parses to an integer outside `1..N` is rejected and the loop goes on
reading (re-prompts, never terminating the program), while a quit-sentinel
line ends the loop at once with the user-quit outcome (`sys.exit(0)`). -/
theorem C4_invalid_reprompts_q_quits (configs : List ConfigEntry)
    (_hne : configs ≠ []) (line : String) (rest : List String) :
    (lowerM (stripM line) = "q" →
      get_user_choice configs (line :: rest) = .quit) ∧
    (lowerM (stripM line) ≠ "q" →
      invalidChoice (parseIntOpt (stripM line)) configs.length = true →
      get_user_choice configs (line :: rest) = get_user_choice configs rest) := by
  constructor
  · intro hq
    simp [get_user_choice, hq]
  · intro hq hinv
    simp only [get_user_choice]
    rw [if_neg hq]
    rcases hp : parseIntOpt (stripM line) with _ | k
    · rfl
    · rw [hp] at hinv
      unfold invalidChoice at hinv
      rw [decide_eq_true_eq] at hinv
      exact if_neg (by omega)

/-- C5: `get_yaml_configs` returns exactly the files below `resources/exps`
whose names match `*.yaml` or `*.yml`, ordered by the case-sensitive
lexicographic order on the rendered path; in particular, a directory
holding `b.yaml`, `a.yml` and `c.txt` yields exactly `[a.yml, b.yaml]` in
that order, excluding `c.txt`. -/
theorem C5_discovery_exact_sorted :
    (∀ fs : FileSystem, fs.pathExists yaml_dir = true →
      ((get_yaml_configs fs).map ConfigEntry.full_path).Perm
        (((fs.filesUnder yaml_dir).filter
            (fun p => matchesExt ".yaml" p || matchesExt ".yml" p)).map
          (yaml_dir ++ ·)) ∧
      List.Sorted pathLe ((get_yaml_configs fs).map ConfigEntry.full_path)) ∧
    get_yaml_configs exampleFS =
      [ { path := ["exps", "a.yml"], name := "a",
          full_path := ["resources", "exps", "a.yml"] },
        { path := ["exps", "b.yaml"], name := "b",
          full_path := ["resources", "exps", "b.yaml"] } ] := by
  constructor
  · intro fs hdir
    unfold get_yaml_configs
    rw [if_neg (by rw [hdir]; exact fun h => Bool.true_eq_false.mp h)]
    have hmap :
        ∀ l : List Path,
          (l.map mkConfigEntry).map ConfigEntry.full_path = l := by
      intro l
      rw [List.map_map]
      exact List.map_id'' (fun f => rfl) l
    rw [hmap]
    constructor
    · refine (List.perm_insertionSort pathLe _).trans ?_
      rw [← List.map_append]
      exact (filter_append_perm_disjoint _ _
        (fun p hp => endsWith_yaml_not_yml (pathName p) hp) _).map _
    · exact List.sorted_insertionSort pathLe _
  · decide

/-- C6: the 1-based menu indices biject onto the configuration sequence:
the entry displayed with number `n` is `configs[n-1]`, and entering a
valid integer `n` with `1 ≤ n ≤ N` makes `get_user_choice` return exactly
`configs[n-1]`. -/
theorem C6_menu_index_bijection (configs : List ConfigEntry) (n : Nat)
    (h1 : 1 ≤ n) (h2 : n ≤ configs.length) :
    (display_configs configs)[n - 1]? =
      Option.map (fun c => (n, c.name)) configs[n - 1]? ∧
    (∀ line rest, parseIntOpt (stripM line) = some (n : Int) →
      get_user_choice configs (line :: rest) =
        .selected (configs.getD (n - 1) default)) := by
  have hlt : n - 1 < configs.length := by omega
  constructor
  · unfold display_configs
    rw [List.getElem?_map, List.getElem?_enum, Option.map_map,
      List.getElem?_eq_getElem hlt]
    have hn : n - 1 + 1 = n := Nat.succ_pred_eq_of_pos h1
    simp [Function.comp, hn]
  · intro line rest hp
    have hq : lowerM (stripM line) ≠ "q" := parse_ne_q hp
    simp only [get_user_choice]
    rw [if_neg hq, hp]
    have hcond : 1 ≤ (n : Int) ∧ (n : Int) ≤ (configs.length : Int) := by
      constructor <;> exact_mod_cast ‹_›
    have htx : ((n : Int) - 1).toNat = n - 1 := by omega
    exact (if_pos hcond).trans (by rw [htx])

/-- C7: when `resources/exps` is absent, or it exists but none of the
files below it match the two extensions, `get_yaml_configs` returns the
empty sequence (the embedding is a total function: no error is raised). -/
theorem C7_empty_discovery (fs : FileSystem) :
    (fs.pathExists yaml_dir = false → get_yaml_configs fs = []) ∧
    ((∀ p ∈ fs.filesUnder yaml_dir,
        matchesExt ".yaml" p = false ∧ matchesExt ".yml" p = false) →
      get_yaml_configs fs = []) := by
  constructor
  · intro h
    simp [get_yaml_configs, h]
  · intro h
    by_cases hdir : fs.pathExists yaml_dir = false
    · simp [get_yaml_configs, hdir]
    · unfold get_yaml_configs
      rw [if_neg hdir]
      have hy : (fs.filesUnder yaml_dir).filter (matchesExt ".yaml") = [] :=
        List.filter_eq_nil_iff.mpr (fun p hp => by simp [(h p hp).1])
      have hm : (fs.filesUnder yaml_dir).filter (matchesExt ".yml") = [] :=
        List.filter_eq_nil_iff.mpr (fun p hp => by simp [(h p hp).2])
      simp [hy, hm]

/-- C8: `run_experiment` always builds the argument vector
`[executablePath, configEntry.path]` and spawns with the working directory
set to the project root, and for every entry produced by discovery the
path passed is the one relative to the `resources` directory (prepending
`resources` yields the entry's full path). -/
theorem C8_argv_and_cwd (fs : FileSystem) (exe : Path) (c : ConfigEntry)
    (spawn : SpawnResult) (hc : c ∈ get_yaml_configs fs) :
    (run_experiment exe c spawn).cmd = [pathStr exe, pathStr c.path] ∧
    (run_experiment exe c spawn).cwd = get_project_root ∧
    ["resources"] ++ c.path = c.full_path := by
  refine ⟨?_, ?_, ?_⟩
  · rcases spawn with code | _
    · unfold run_experiment
      by_cases h : code = 0 <;> simp [h]
    · rfl
  · rcases spawn with code | _
    · unfold run_experiment
      by_cases h : code = 0 <;> simp [h]
    · rfl
  · obtain ⟨rel, _, hmatch, hc⟩ := mem_get_yaml_configs hc
    subst hc
    have hrel : List.isPrefixOf ["resources"] (yaml_dir ++ rel) = true := rfl
    simp only [mkConfigEntry, relative_to, yaml_dir, hrel, if_pos]
    rfl

/-- C9: every discovered entry satisfies the round-trip invariant:
joining the resources directory with the entry's relative path gives its
full path, its display name is the stem of its file name, and its full
path ends in `.yaml` or `.yml`. -/
theorem C9_entry_roundtrip (fs : FileSystem) (c : ConfigEntry)
    (hc : c ∈ get_yaml_configs fs) :
    ["resources"] ++ c.path = c.full_path ∧
    c.name = stem (pathName c.full_path) ∧
    (endsWithM (pathName c.full_path) ".yaml" = true ∨
      endsWithM (pathName c.full_path) ".yml" = true) := by
  obtain ⟨rel, _, hmatch, hc⟩ := mem_get_yaml_configs hc
  subst hc
  refine ⟨?_, rfl, ?_⟩
  · have hrel : List.isPrefixOf ["resources"] (yaml_dir ++ rel) = true := rfl
    simp only [mkConfigEntry, relative_to, yaml_dir, hrel, if_pos]
    rfl
  · have hname : pathName (yaml_dir ++ rel) = pathName rel :=
      pathName_append yaml_dir rel (matched_ne_nil hmatch)
    show endsWithM (pathName (yaml_dir ++ rel)) ".yaml" = true ∨
      endsWithM (pathName (yaml_dir ++ rel)) ".yml" = true
    rw [hname]
    exact hmatch

/-- C10: `get_user_choice` interprets each line after stripping leading
and trailing whitespace (processing `line` and `strip(line)` coincide),
and matches the quit sentinel case-insensitively: any line whose stripped,
lowercased form is `q` quits immediately. -/
theorem C10_strip_and_case_insensitive_quit (configs : List ConfigEntry)
    (line : String) (rest : List String) :
    get_user_choice configs (line :: rest) =
      get_user_choice configs (stripM line :: rest) ∧
    (lowerM (stripM line) = "q" →
      get_user_choice configs (line :: rest) = .quit) := by
  constructor
  · conv_rhs => rw [get_user_choice]
    rw [stripM_idem]
    rfl
  · intro hq
    simp [get_user_choice, hq]

/-! ### Witnesses: the theorems instantiated at concrete inputs -/

/-- A filesystem whose config directory exists but holds no matching file. -/
def txtFS : FileSystem :=
  { pathExists := fun p => p = yaml_dir,
    filesUnder := fun d => if d = yaml_dir then [["c.txt"]] else [] }

theorem C3_exit_codes_witness :
    main exampleFS ["q"] (.exited 7) = some 0 :=
  ((C3_exit_codes exampleFS ["q"] (.exited 7)).2 (by decide) (by decide)
    (by decide)).1 (by decide)

theorem C4_invalid_reprompts_q_quits_witness :
    get_user_choice cfgs3 ["0", "q"] = get_user_choice cfgs3 ["q"] ∧
    get_user_choice cfgs3 ["q"] = .quit :=
  ⟨(C4_invalid_reprompts_q_quits cfgs3 (by decide) "0" ["q"]).2 (by decide)
      (by decide),
    (C4_invalid_reprompts_q_quits cfgs3 (by decide) "q" []).1 (by decide)⟩

theorem C5_discovery_exact_sorted_witness :
    ((get_yaml_configs exampleFS).map ConfigEntry.full_path).Perm
      (((exampleFS.filesUnder yaml_dir).filter
          (fun p => matchesExt ".yaml" p || matchesExt ".yml" p)).map
        (yaml_dir ++ ·)) ∧
    List.Sorted pathLe ((get_yaml_configs exampleFS).map ConfigEntry.full_path) :=
  C5_discovery_exact_sorted.1 exampleFS (by decide)

theorem C6_menu_index_bijection_witness :
    (display_configs cfgs3)[2 - 1]? =
      Option.map (fun c => (2, c.name)) cfgs3[2 - 1]? ∧
    get_user_choice cfgs3 [" 2 "] = .selected (cfgs3.getD (2 - 1) default) :=
  ⟨(C6_menu_index_bijection cfgs3 2 (by decide) (by decide)).1,
    (C6_menu_index_bijection cfgs3 2 (by decide) (by decide)).2 " 2 " []
      (by decide)⟩

theorem C7_empty_discovery_witness :
    get_yaml_configs emptyFS = [] ∧ get_yaml_configs txtFS = [] :=
  ⟨(C7_empty_discovery emptyFS).1 (by decide),
    (C7_empty_discovery txtFS).2 (by decide)⟩

theorem C8_argv_and_cwd_witness :
    (run_experiment ["build", "qiwu-example"]
        { path := ["exps", "a.yml"], name := "a",
          full_path := ["resources", "exps", "a.yml"] }
        (.exited 0)).cmd =
      [pathStr ["build", "qiwu-example"], pathStr ["exps", "a.yml"]] ∧
    (run_experiment ["build", "qiwu-example"]
        { path := ["exps", "a.yml"], name := "a",
          full_path := ["resources", "exps", "a.yml"] }
        (.exited 0)).cwd = get_project_root ∧
    ["resources"] ++ (["exps", "a.yml"] : Path) = ["resources", "exps", "a.yml"] :=
  C8_argv_and_cwd exampleFS ["build", "qiwu-example"]
    { path := ["exps", "a.yml"], name := "a",
      full_path := ["resources", "exps", "a.yml"] }
    (.exited 0) (by decide)

theorem C9_entry_roundtrip_witness :
    ["resources"] ++
        ({ path := ["exps", "a.yml"], name := "a",
            full_path := ["resources", "exps", "a.yml"] } : ConfigEntry).path =
      ["resources", "exps", "a.yml"] ∧
    ({ path := ["exps", "a.yml"], name := "a",
        full_path := ["resources", "exps", "a.yml"] } : ConfigEntry).name =
      stem (pathName ["resources", "exps", "a.yml"]) ∧
    (endsWithM (pathName ["resources", "exps", "a.yml"]) ".yaml" = true ∨
      endsWithM (pathName ["resources", "exps", "a.yml"]) ".yml" = true) :=
  C9_entry_roundtrip exampleFS
    { path := ["exps", "a.yml"], name := "a",
      full_path := ["resources", "exps", "a.yml"] }
    (by decide)

theorem C10_strip_and_case_insensitive_quit_witness :
    get_user_choice cfgs3 [" q "] = .quit ∧
    get_user_choice cfgs3 ["Q"] = .quit :=
  ⟨(C10_strip_and_case_insensitive_quit cfgs3 " q " []).2 (by decide),
    (C10_strip_and_case_insensitive_quit cfgs3 "Q" []).2 (by decide)⟩

end Qiwu
